import Mathlib

/-!
# Verification of the inventory manager (`src/main.cpp`)

Shallow embedding of the data-and-transaction core of the single-file C++
inventory program: the global in-memory state (items, sales, the two next-id
counters), the four logic entry points (`logic_addItem`, `logic_deleteItem`,
`logic_updateItem`, `logic_sellItem`), and the CSV persistence round trip
(`saveData`, `parseCSV`, `seedData`, `loadData`).

Modelling conventions:
* C++ `int` is modelled as `Int` (values produced by the program always fit);
  `std::stoi`'s range check is modelled explicitly where the source calls it.
* C++ `double` is modelled as `ℚ`; stream output of a `double` (default
  6-significant-digit `%g` formatting) is modelled by `printDouble`, and
  `std::stod` by `stodM` (its decimal grammar; the program never writes
  hex/inf/nan forms).
* The wall-clock timestamp `getCurrentDate()` is passed in as an explicit
  `date` argument; nothing in the logic inspects it.
* An uncaught C++ exception escaping `loadData` (e.g. `std::invalid_argument`
  from `stoi` on a non-numeric field) is modelled as `Except.error st` where
  `st` is the in-memory state at the throw point.
-/

namespace InventoryApp

/-- `struct Item` of the source. -/
structure Item where
  id : Int
  name : String
  size_color : String
  quantity : Int
  purchase_price : ℚ
  selling_price : ℚ
deriving DecidableEq

/-- `struct Sale` of the source. -/
structure Sale where
  id : Int
  item_id : Int
  item_name : String
  quantity_sold : Int
  profit : ℚ
  date_sold : String
deriving DecidableEq

/-- The global mutable state of the program: `items`, `sales`, `nextItemId`,
`nextSaleId`. -/
structure AppState where
  items : List Item
  sales : List Sale
  nextItemId : Int
  nextSaleId : Int
deriving DecidableEq

/-- The state at program start: both collections empty, both counters 1. -/
def initState : AppState := ⟨[], [], 1, 1⟩

/-- The two persisted CSV files (`items.csv`, `sales.csv`); `none` models an
absent file (`ifstream::is_open()` false). -/
structure Files where
  itemsFile : Option String
  salesFile : Option String
deriving DecidableEq

/-- Apply `f` to the first element satisfying `p` (model of mutating through
the iterator returned by `std::find_if`). -/
def updateFirst (p : α → Bool) (f : α → α) : List α → List α
  | [] => []
  | x :: xs => if p x then f x :: xs else x :: updateFirst p f xs

/-- Remove the first element satisfying `p` (model of `vector::erase` at the
iterator returned by `std::find_if`). -/
def eraseFirst (p : α → Bool) : List α → List α
  | [] => []
  | x :: xs => if p x then xs else x :: eraseFirst p xs

/-- `find_if(items.begin(), items.end(), [id](const Item& item) { return item.id == id; })`. -/
def findItem (l : List Item) (id : Int) : Option Item :=
  l.find? (fun it => it.id == id)

/-- `logic_addItem`: assigns `id = nextItemId++`, appends the new item,
returns the assigned id. -/
def logic_addItem (st : AppState) (name size : String) (qty : Int)
    (buy sl : ℚ) : Int × AppState :=
  let id := st.nextItemId
  (id, { st with
          items := st.items ++ [⟨id, name, size, qty, buy, sl⟩],
          nextItemId := id + 1 })

/-- `logic_deleteItem`: erases the first item with matching id; returns
whether a match was found. -/
def logic_deleteItem (st : AppState) (id : Int) : Bool × AppState :=
  match findItem st.items id with
  | some _ => (true, { st with items := eraseFirst (fun it => it.id == id) st.items })
  | none => (false, st)

/-- `logic_updateItem`: overwrites `quantity`, `purchase_price`,
`selling_price` of the first item with matching id; returns whether a match
was found. -/
def logic_updateItem (st : AppState) (id : Int) (qty : Int) (buy sl : ℚ) :
    Bool × AppState :=
  match findItem st.items id with
  | some _ =>
      (true, { st with
                items := updateFirst (fun it => it.id == id)
                  (fun it =>
                    { it with
                      quantity := qty
                      purchase_price := buy
                      selling_price := sl }) st.items })
  | none => (false, st)

/-- `logic_sellItem`: returns `(code, profitOut, state)` where code
`0` = success, `1` = item not found, `2` = not enough stock.  `profitIn` is
the caller's value of the by-reference `profitOut` parameter, which the
source leaves untouched on failure.  `date` is the value of
`getCurrentDate()`. -/
def logic_sellItem (st : AppState) (id qty : Int) (date : String)
    (profitIn : ℚ) : Int × ℚ × AppState :=
  match findItem st.items id with
  | none => (1, profitIn, st)
  | some it =>
    if qty > it.quantity then (2, profitIn, st)
    else
      let profit := (it.selling_price - it.purchase_price) * (qty : ℚ)
      (0, profit,
        { st with
          items := updateFirst (fun i => i.id == id)
            (fun i => { i with quantity := i.quantity - qty }) st.items,
          sales := st.sales ++ [⟨st.nextSaleId, it.id, it.name, qty, profit, date⟩],
          nextSaleId := st.nextSaleId + 1 })

/-- One call to any of the four logic entry points (used to state properties
over arbitrary operation sequences). -/
inductive Op where
  | add (name size : String) (qty : Int) (buy sl : ℚ)
  | del (id : Int)
  | upd (id : Int) (qty : Int) (buy sl : ℚ)
  | sellOp (id qty : Int) (date : String) (profitIn : ℚ)

/-- Apply one operation, discarding the returned code/profit. -/
def applyOp (st : AppState) : Op → AppState
  | .add name size qty buy sl => (logic_addItem st name size qty buy sl).2
  | .del id => (logic_deleteItem st id).2
  | .upd id qty buy sl => (logic_updateItem st id qty buy sl).2
  | .sellOp id qty date p0 => (logic_sellItem st id qty date p0).2.2

/-- Apply a sequence of operations left to right. -/
def runOps (st : AppState) : List Op → AppState
  | [] => st
  | op :: ops => runOps (applyOp st op) ops

/-- Apply a sequence of sell calls `(id, qty, date)` left to right. -/
def runSells (st : AppState) : List (Int × Int × String) → AppState
  | [] => st
  | (id, q, d) :: rest => runSells (logic_sellItem st id q d 0).2.2 rest

/-! ## String utilities of the source (`trim`, `parseCSV`, `getline` loops) -/

/-- The whitespace set `" \t\n\r"` used by the source's `trim`. -/
def isTrimWS (c : Char) : Bool := c = ' ' || c = '\t' || c = '\n' || c = '\r'

/-- `trim`: strip leading and trailing `" \t\n\r"` characters. -/
def trim (s : String) : String :=
  String.mk (((s.data.dropWhile isTrimWS).reverse.dropWhile isTrimWS).reverse)

/-- Tokenisation performed by a `while (getline(stream, tok, d))` loop: each
delimiter ends a token; a trailing delimiter does not produce a final empty
token (the last `getline` fails at end of input), and empty input yields no
tokens. -/
def cppSplit (d : Char) : List Char → List String
  | [] => []
  | c :: cs =>
    if c = d then "" :: cppSplit d cs
    else
      match cppSplit d cs with
      | [] => [String.mk [c]]
      | t :: ts => String.mk (c :: t.data) :: ts

/-- `parseCSV`: split a line on `','` with `getline`. -/
def parseCSV (line : String) : List String := cppSplit ',' line.data

/-- The lines a `while (getline(file, line))` loop reads from a file whose
whole content is `content`. -/
def linesOf (content : String) : List String := cppSplit '\n' content.data

/-! ## `std::stoi` / `std::stod` (decimal forms)

`stoiM`/`stodM` return `none` where the C++ function throws
(`std::invalid_argument` when no digits can be parsed, `std::out_of_range`
when the value does not fit in `int`).  `stodM` covers the decimal grammar of
`strtod` (the only form the program itself ever writes; hex/inf/nan forms are
not modelled). -/

/-- The `std::isspace` set skipped by `strtol`/`strtod`. -/
def isSpaceChar (c : Char) : Bool :=
  c = ' ' || c = '\t' || c = '\n' || c = '\x0b' || c = '\x0c' || c = '\r'

/-- Value of a digit string, most significant first. -/
def digitsVal (ds : List Char) : Nat :=
  ds.foldl (fun a c => 10 * a + (c.toNat - 48)) 0

def intMin : Int := -2147483648

def intMax : Int := 2147483647

/-- Digits-and-range part of `stoi` after sign handling. -/
def stoiMAux (neg : Bool) (cs : List Char) : Option Int :=
  let ds := cs.takeWhile Char.isDigit
  if ds = [] then none
  else
    let v : Int := if neg then -(digitsVal ds : Int) else (digitsVal ds : Int)
    if intMin ≤ v ∧ v ≤ intMax then some v else none

/-- `std::stoi` (base 10): skip whitespace, optional sign, longest digit
prefix; `none` models a thrown exception. -/
def stoiM (s : String) : Option Int :=
  match s.data.dropWhile isSpaceChar with
  | '-' :: r => stoiMAux true r
  | '+' :: r => stoiMAux false r
  | r => stoiMAux false r

/-- Multiply by a signed power of ten. -/
def mulPow10 (q : ℚ) (e : Int) : ℚ :=
  if 0 ≤ e then q * 10 ^ e.toNat else q / 10 ^ e.natAbs

/-- Exponent digits of a `strtod` exponent (0 when absent, making the
exponent part unconsumed, as with `strtod`'s longest-valid-prefix rule). -/
def expDigits (neg : Bool) (cs : List Char) : Int :=
  match cs.takeWhile Char.isDigit with
  | [] => 0
  | ds => if neg then -(digitsVal ds : Int) else (digitsVal ds : Int)

/-- Optional sign of a `strtod` exponent. -/
def parseExpSign : List Char → Int
  | '-' :: r => expDigits true r
  | '+' :: r => expDigits false r
  | r => expDigits false r

/-- `strtod` exponent part (`e`/`E` followed by an optionally signed digit
sequence); 0 when absent. -/
def parseExp : List Char → Int
  | 'e' :: r => parseExpSign r
  | 'E' :: r => parseExpSign r
  | _ => 0

/-- Mantissa-and-exponent part of `stod` after sign handling. -/
def stodMAux (neg : Bool) (cs : List Char) : Option ℚ :=
  let ip := cs.takeWhile Char.isDigit
  let rest1 := cs.dropWhile Char.isDigit
  let fp := match rest1 with
    | '.' :: r => r.takeWhile Char.isDigit
    | _ => []
  let rest2 := match rest1 with
    | '.' :: r => r.dropWhile Char.isDigit
    | r => r
  if ip = [] ∧ fp = [] then none
  else
    let mant : ℚ := (digitsVal ip : ℚ) + (digitsVal fp : ℚ) / 10 ^ fp.length
    let v := mulPow10 mant (parseExp rest2)
    some (if neg then -v else v)

/-- `std::stod` on decimal forms: skip whitespace, optional sign, digit
sequence with optional fraction and exponent; `none` models a thrown
exception. -/
def stodM (s : String) : Option ℚ :=
  match s.data.dropWhile isSpaceChar with
  | '-' :: r => stodMAux true r
  | '+' :: r => stodMAux false r
  | r => stodMAux false r

/-! ## Stream output of numbers (`operator<<` on `int` and `double`)

A `double` is written with the default stream precision of 6 significant
digits (`%g` style): fixed notation without trailing zeros when the decimal
exponent is in `[-4, 5]`, scientific notation otherwise. -/

/-- Decimal digit character. -/
def digitChar (n : Nat) : Char := Char.ofNat (48 + n)

/-- Decimal digits of a natural number, with explicit fuel so that the
definition is structurally recursive. -/
def natCharsFuel : Nat → Nat → List Char
  | 0, _ => []
  | fuel + 1, n =>
    if n < 10 then [digitChar n]
    else natCharsFuel fuel (n / 10) ++ [digitChar (n % 10)]

/-- Decimal digits of a natural number, most significant first. -/
def natChars (n : Nat) : List Char := natCharsFuel (n + 1) n

/-- `operator<<` on `int`. -/
def printInt (i : Int) : String :=
  if i < 0 then "-" ++ String.mk (natChars i.natAbs)
  else String.mk (natChars i.natAbs)

/-- `|q|` as a computable conditional. -/
def ratAbs (q : ℚ) : ℚ := if q < 0 then -q else q

/-- `⌊a⌋` for `a ≥ 0`, as a natural number. -/
def ratFloorPos (a : ℚ) : Nat := a.num.toNat / a.den

/-- Round a non-negative rational to the nearest natural number, ties to
even (the rounding used when a decimal is produced from a binary `double`).  -/
def roundHalfEven (r : ℚ) : Nat :=
  let f := ratFloorPos r
  let frac := r - (f : ℚ)
  if frac < 1/2 then f
  else if (1:ℚ)/2 < frac then f + 1
  else if f % 2 = 0 then f else f + 1

/-- Smallest `k` (searched upward from `k`, with fuel) with `1 ≤ a * 10 ^ k`. -/
def logFuelAux (a : ℚ) : Nat → Nat → Nat
  | 0, k => k
  | fuel + 1, k => if 1 ≤ a * 10 ^ k then k else logFuelAux a fuel (k + 1)

/-- `⌊log₁₀ a⌋` for `a > 0`. -/
def floorLog10 (a : ℚ) : Int :=
  if 1 ≤ a then ((natChars (ratFloorPos a)).length : Int) - 1
  else -(logFuelAux a ((natChars a.den).length + 2) 1)

/-- Drop trailing `'0'` characters. -/
def stripZeros (ds : List Char) : List Char :=
  (ds.reverse.dropWhile (fun c => c = '0')).reverse

/-- Pad a digit string to at least two characters (exponent field of `%g`). -/
def pad2 (s : String) : String := if s.data.length < 2 then "0" ++ s else s

/-- Exponent suffix of scientific notation, e.g. `"e+06"`. -/
def sciExp (e : Int) : String :=
  "e" ++ (if e < 0 then "-" else "+") ++ pad2 (String.mk (natChars e.natAbs))

/-- Render the 6 rounded significant digits `ds` with decimal exponent `e`
in `%g` style. -/
def printSixDigits (ds : List Char) (e : Int) : String :=
  if 0 ≤ e ∧ e ≤ 5 then
    let ip := ds.take (e.toNat + 1)
    let fp := stripZeros (ds.drop (e.toNat + 1))
    String.mk ip ++ (if fp = [] then "" else "." ++ String.mk fp)
  else if -4 ≤ e ∧ e < 0 then
    "0." ++ String.mk (List.replicate (e.natAbs - 1) '0' ++ stripZeros ds)
  else
    let m := stripZeros ds.tail
    String.mk (ds.take 1) ++ (if m = [] then "" else "." ++ String.mk m) ++ sciExp e

/-- `operator<<` on `double` with the default precision of 6 significant
digits. -/
def printDouble (x : ℚ) : String :=
  if x = 0 then "0"
  else
    let a := ratAbs x
    let e0 := floorLog10 a
    let m := roundHalfEven (mulPow10 a (5 - e0))
    let m6 := if m = 1000000 then 100000 else m
    let e6 := if m = 1000000 then e0 + 1 else e0
    (if x < 0 then "-" else "") ++ printSixDigits (natChars m6) e6

/-! ## Persistence (`saveData`, `seedData`, `loadData`) -/

/-- The characters written by `saveData` for one item, before the final
newline. -/
def itemBody (it : Item) : String :=
  printInt it.id ++ "," ++ it.name ++ "," ++ it.size_color ++ "," ++
    printInt it.quantity ++ "," ++ printDouble it.purchase_price ++ "," ++
    printDouble it.selling_price

/-- One line written by `saveData` for an item. -/
def itemLine (it : Item) : String := itemBody it ++ "\n"

/-- The characters written by `saveData` for one sale, before the final
newline. -/
def saleBody (sa : Sale) : String :=
  printInt sa.id ++ "," ++ printInt sa.item_id ++ "," ++ sa.item_name ++ "," ++
    printInt sa.quantity_sold ++ "," ++ printDouble sa.profit ++ "," ++
    sa.date_sold

/-- One line written by `saveData` for a sale. -/
def saleLine (sa : Sale) : String := saleBody sa ++ "\n"

/-- Concatenation of the written lines. -/
def concatStr : List String → String
  | [] => ""
  | s :: ss => s ++ concatStr ss

/-- `saveData`: overwrite both files with the current in-memory state, one
record per line. -/
def saveData (st : AppState) : Files :=
  ⟨some (concatStr (st.items.map itemLine)),
   some (concatStr (st.sales.map saleLine))⟩

/-- Outcome of processing one line of a persisted file: skipped, a parsed
record, or an uncaught `stoi`/`stod` exception. -/
inductive RowResult (α : Type) where
  | skip
  | row (a : α)
  | fault
deriving DecidableEq

/-- Processing of one line of `items.csv` by the load loop. -/
def itemRow (line : String) : RowResult Item :=
  if trim line = "" then .skip
  else
    match parseCSV line with
    | d0 :: d1 :: d2 :: d3 :: d4 :: d5 :: _ =>
      match stoiM d0, stoiM d3, stodM d4, stodM d5 with
      | some i, some q, some b, some s => .row ⟨i, d1, d2, q, b, s⟩
      | _, _, _, _ => .fault
    | _ => .skip

/-- Processing of one line of `sales.csv` by the load loop. -/
def saleRow (line : String) : RowResult Sale :=
  if trim line = "" then .skip
  else
    match parseCSV line with
    | d0 :: d1 :: d2 :: d3 :: d4 :: d5 :: _ =>
      match stoiM d0, stoiM d1, stoiM d3, stodM d4 with
      | some i, some iid, some q, some p => .row ⟨i, iid, d2, q, p, d5⟩
      | _, _, _, _ => .fault
    | _ => .skip

/-- The record produced by a line, if any. -/
def rowOf : RowResult α → Option α
  | .row a => some a
  | _ => none

/-- Effect of one `items.csv` line on the state (append the item and advance
`nextItemId` to `id + 1` when `id >= nextItemId`); `.error` models the
uncaught exception. -/
def loadItemLine (st : AppState) (line : String) : Except AppState AppState :=
  match itemRow line with
  | .skip => .ok st
  | .fault => .error st
  | .row it =>
    .ok { st with
          items := st.items ++ [it],
          nextItemId := if st.nextItemId ≤ it.id then it.id + 1 else st.nextItemId }

/-- Effect of one `sales.csv` line on the state. -/
def loadSaleLine (st : AppState) (line : String) : Except AppState AppState :=
  match saleRow line with
  | .skip => .ok st
  | .fault => .error st
  | .row sa =>
    .ok { st with
          sales := st.sales ++ [sa],
          nextSaleId := if st.nextSaleId ≤ sa.id then sa.id + 1 else st.nextSaleId }

/-- Run the per-line action over all lines, stopping at the first exception. -/
def foldE (f : AppState → String → Except AppState AppState) :
    AppState → List String → Except AppState AppState
  | st, [] => .ok st
  | st, l :: ls =>
    match f st l with
    | .ok st2 => foldE f st2 ls
    | .error e => .error e

/-- `seedData`: push the three default items, advancing `nextItemId`. -/
def seedData (st : AppState) : AppState :=
  let s1 := { st with
              items := st.items ++ [(⟨st.nextItemId, "Widget", "Small", 10, 5, 8⟩ : Item)],
              nextItemId := st.nextItemId + 1 }
  let s2 := { s1 with
              items := s1.items ++ [(⟨s1.nextItemId, "Bolt", "Red", 3, 1/2, 1⟩ : Item)],
              nextItemId := s1.nextItemId + 1 }
  { s2 with
    items := s2.items ++ [(⟨s2.nextItemId, "Gadget", "Blue", 20, 10, 15⟩ : Item)],
    nextItemId := s2.nextItemId + 1 }

set_option linter.unusedVariables false in
/-- `loadData`: clear both collections, reset both counters, read both files
(an absent file is skipped), and seed the defaults if both collections are
still empty.  The prior in-memory state `prior` is the value of the globals
when `loadData` is called. -/
def loadData (prior : AppState) (fs : Files) : Except AppState AppState :=
  match (match fs.itemsFile with
         | none => Except.ok initState
         | some c => foldE loadItemLine initState (linesOf c)) with
  | .error e => .error e
  | .ok st1 =>
    match (match fs.salesFile with
           | none => Except.ok st1
           | some c => foldE loadSaleLine st1 (linesOf c)) with
    | .error e => .error e
    | .ok st2 =>
      .ok (if st2.items.isEmpty && st2.sales.isEmpty then seedData st2 else st2)

/-! ## Side conditions for the textual round trip -/

/-- A character that does not disturb the unescaped CSV format: neither the
field delimiter nor the record delimiter. -/
def csvSafe (c : Char) : Bool := !(c == ',') && !(c == '\n')

/-- Every character of the string is `csvSafe`. -/
def cleanStr (s : String) : Bool := s.data.all csvSafe

/-- An item whose fields survive the textual round trip: name and variant
are delimiter-free (the UI guarantees this by replacing commas), and each
numeric field re-parses to itself (true whenever the value has at most 6
significant decimal digits and the integers fit in `int`). -/
def itemPersistable (it : Item) : Prop :=
  cleanStr it.name = true ∧ cleanStr it.size_color = true ∧
  stoiM (printInt it.id) = some it.id ∧
  stoiM (printInt it.quantity) = some it.quantity ∧
  stodM (printDouble it.purchase_price) = some it.purchase_price ∧
  stodM (printDouble it.selling_price) = some it.selling_price

/-- A sale whose fields survive the textual round trip; the date must also be
non-empty, because `getline` drops a trailing empty field. -/
def salePersistable (sa : Sale) : Prop :=
  cleanStr sa.item_name = true ∧ cleanStr sa.date_sold = true ∧
  sa.date_sold ≠ "" ∧
  stoiM (printInt sa.id) = some sa.id ∧
  stoiM (printInt sa.item_id) = some sa.item_id ∧
  stoiM (printInt sa.quantity_sold) = some sa.quantity_sold ∧
  stodM (printDouble sa.profit) = some sa.profit

/-- Concrete one-item state used by the witnesses below. -/
def wSt : AppState := ⟨[⟨1, "A", "B", 5, 3, 4⟩], [], 2, 1⟩

/-- The single item of `wSt`. -/
def wIt : Item := ⟨1, "A", "B", 5, 3, 4⟩

/-- Concrete state (one item, one sale) used by the round-trip witness. -/
def wSt2 : AppState :=
  ⟨[⟨1, "A", "B", 2, 3, 4⟩], [⟨1, 1, "A", 1, 1, "D"⟩], 2, 2⟩

/-! ## Helper lemmas -/

/-- Decomposition of a successful linear search: the list splits at the first
match, and `updateFirst`/`eraseFirst` act exactly there. -/
theorem find?_split {α : Type} {p : α → Bool} {l : List α} {a : α} (f : α → α)
    (h : l.find? p = some a) :
    ∃ pre post, l = pre ++ a :: post ∧ (∀ x ∈ pre, p x = false) ∧ p a = true ∧
      updateFirst p f l = pre ++ f a :: post ∧ eraseFirst p l = pre ++ post := by
  induction l with
  | nil => simp at h
  | cons x xs ih =>
    by_cases hp : p x
    · rw [List.find?_cons_of_pos _ hp] at h
      obtain rfl : x = a := by simpa using h
      exact ⟨[], xs, by simp, by simp, hp, by simp [updateFirst, hp], by simp [eraseFirst, hp]⟩
    · rw [List.find?_cons_of_neg _ hp] at h
      obtain ⟨pre, post, hl, hpre, hpa, hupd, hdel⟩ := ih h
      refine ⟨x :: pre, post, by simp [hl], ?_, hpa, ?_, ?_⟩
      · intro y hy
        rcases List.mem_cons.mp hy with rfl | hy
        · simpa using hp
        · exact hpre y hy
      · simp [updateFirst, hp, hupd]
      · simp [eraseFirst, hp, hdel]

/-- A found item's id matches the searched id. -/
theorem findItem_id {l : List Item} {id : Int} {it : Item}
    (h : findItem l id = some it) : it.id = id := by
  have := List.find?_some h
  simpa using this

/-- `logic_sellItem` on a missing id: code 1, nothing changed. -/
theorem sellItem_notFound {st : AppState} {id q : Int} {d : String} {p0 : ℚ}
    (h : findItem st.items id = none) :
    logic_sellItem st id q d p0 = (1, p0, st) := by
  simp [logic_sellItem, h]

/-- `logic_sellItem` with too large a quantity: code 2, nothing changed. -/
theorem sellItem_insufficient {st : AppState} {id q : Int} {d : String} {p0 : ℚ}
    {it : Item} (h : findItem st.items id = some it) (hlt : it.quantity < q) :
    logic_sellItem st id q d p0 = (2, p0, st) := by
  simp [logic_sellItem, h, hlt]

/-- `logic_sellItem` success case, with the list decomposition at the sold
item. -/
theorem sellItem_ok {st : AppState} {id q : Int} {d : String} {p0 : ℚ}
    {it : Item} (hfind : findItem st.items id = some it) (hq : q ≤ it.quantity) :
    ∃ pre post,
      st.items = pre ++ it :: post ∧
      (∀ x ∈ pre, (x.id == id) = false) ∧
      it.id = id ∧
      logic_sellItem st id q d p0 =
        (0, (it.selling_price - it.purchase_price) * (q : ℚ),
          { items := pre ++ { it with quantity := it.quantity - q } :: post,
            sales := st.sales ++ [⟨st.nextSaleId, it.id, it.name, q,
              (it.selling_price - it.purchase_price) * (q : ℚ), d⟩],
            nextItemId := st.nextItemId,
            nextSaleId := st.nextSaleId + 1 }) := by
  obtain ⟨pre, post, hl, hpre, hpa, hupd, -⟩ :=
    find?_split (fun i => { i with quantity := i.quantity - q }) hfind
  refine ⟨pre, post, hl, hpre, findItem_id hfind, ?_⟩
  have hnot : ¬ q > it.quantity := not_lt.mpr hq
  simp only [logic_sellItem, hfind, hnot, if_false]
  rw [hupd]

/-! ## C1: successful sell -/

/-- **C1.** For every item present in the store (the first match for its id)
and every quantity `q ≤ item.quantity`, `sell` succeeds: the item's quantity
becomes `old - q`, the returned profit is
`(selling_price - purchase_price) * q`, exactly one new `Sale` is appended
with `quantity_sold = q`, the sold item's id, and the item's current name,
and all other items, all previously recorded sales, and the counters (except
`nextSaleId`, incremented for the new sale's id) are unchanged. -/
theorem sell_success_spec (st : AppState) (id q : Int) (d : String) (p0 : ℚ)
    (it : Item) (hfind : findItem st.items id = some it) (hq : q ≤ it.quantity) :
    ∃ pre post,
      st.items = pre ++ it :: post ∧
      (∀ x ∈ pre, (x.id == id) = false) ∧
      it.id = id ∧
      logic_sellItem st id q d p0 =
        (0, (it.selling_price - it.purchase_price) * (q : ℚ),
          { items := pre ++ { it with quantity := it.quantity - q } :: post,
            sales := st.sales ++ [⟨st.nextSaleId, it.id, it.name, q,
              (it.selling_price - it.purchase_price) * (q : ℚ), d⟩],
            nextItemId := st.nextItemId,
            nextSaleId := st.nextSaleId + 1 }) :=
  sellItem_ok hfind hq

/-- Witness for C1 at a concrete state. -/
theorem sell_success_spec_witness :
    findItem wSt.items 1 = some wIt ∧ (2 : Int) ≤ wIt.quantity ∧
    (∃ pre post,
      wSt.items = pre ++ wIt :: post ∧
      (∀ x ∈ pre, (x.id == (1 : Int)) = false) ∧
      wIt.id = 1 ∧
      logic_sellItem wSt 1 2 "d" 0 =
        (0, (wIt.selling_price - wIt.purchase_price) * ((2 : Int) : ℚ),
          { items := pre ++ { wIt with quantity := wIt.quantity - 2 } :: post,
            sales := wSt.sales ++ [⟨wSt.nextSaleId, wIt.id, wIt.name, 2,
              (wIt.selling_price - wIt.purchase_price) * ((2 : Int) : ℚ), "d"⟩],
            nextItemId := wSt.nextItemId,
            nextSaleId := wSt.nextSaleId + 1 })) :=
  ⟨rfl, by decide, sell_success_spec wSt 1 2 "d" 0 wIt rfl (by decide)⟩

/-! ## C2: sell failure cases -/

/-- **C2.** `sell` on a missing id returns code 1 (`ItemNotFound`) with the
whole state unchanged; on an existing item with `q > quantity` it returns
code 2 (`InsufficientStock`) with the whole state unchanged; and every
non-success outcome is one of these two, leaving state and the by-reference
profit untouched. -/
theorem sell_failure_spec (st : AppState) (id q : Int) (d : String) (p0 : ℚ) :
    (findItem st.items id = none → logic_sellItem st id q d p0 = (1, p0, st)) ∧
    (∀ it, findItem st.items id = some it → it.quantity < q →
      logic_sellItem st id q d p0 = (2, p0, st)) ∧
    (∀ c pr st2, logic_sellItem st id q d p0 = (c, pr, st2) → c ≠ 0 →
      (c = 1 ∨ c = 2) ∧ st2 = st ∧ pr = p0) := by
  refine ⟨fun h => sellItem_notFound h, fun it h hlt => sellItem_insufficient h hlt, ?_⟩
  intro c pr st2 heq hc
  cases hopt : findItem st.items id with
  | none =>
    rw [sellItem_notFound hopt] at heq
    simp only [Prod.mk.injEq] at heq
    obtain ⟨rfl, rfl, rfl⟩ := heq
    exact ⟨Or.inl rfl, rfl, rfl⟩
  | some it =>
    by_cases hlt : it.quantity < q
    · rw [sellItem_insufficient hopt hlt] at heq
      simp only [Prod.mk.injEq] at heq
      obtain ⟨rfl, rfl, rfl⟩ := heq
      exact ⟨Or.inr rfl, rfl, rfl⟩
    · obtain ⟨pre2, post2, -, -, -, hop⟩ := sellItem_ok hopt (not_lt.mp hlt)
      rw [hop] at heq
      simp only [Prod.mk.injEq] at heq
      exact absurd heq.1.symm hc

/-- Witness for C2: both failure cases at concrete states. -/
theorem sell_failure_spec_witness :
    findItem wSt.items 99 = none ∧ logic_sellItem wSt 99 1 "d" 0 = (1, 0, wSt) ∧
    findItem wSt.items 1 = some wIt ∧ wIt.quantity < 9 ∧
    logic_sellItem wSt 1 9 "d" 0 = (2, 0, wSt) :=
  ⟨rfl, (sell_failure_spec wSt 99 1 "d" 0).1 rfl, rfl, by decide,
   (sell_failure_spec wSt 1 9 "d" 0).2.1 wIt rfl (by decide)⟩

/-! ## C4: non-positive quantities are accepted -/

/-- **C4.** `sell` does not reject a zero or negative quantity: for an item
present in the store (with the data-model invariant `0 ≤ quantity`) and any
`q ≤ 0`, `sell` succeeds, the quantity increases by `|q|`, a sale is recorded
with profit `(selling_price - purchase_price) * q`, and that profit is a
negative credit whenever `q < 0` and `selling_price > purchase_price`. -/
theorem sell_nonpositive_qty (st : AppState) (id q : Int) (d : String) (p0 : ℚ)
    (it : Item) (hfind : findItem st.items id = some it) (hq : q ≤ 0)
    (hinv : 0 ≤ it.quantity) :
    ∃ pre post,
      st.items = pre ++ it :: post ∧
      (∀ x ∈ pre, (x.id == id) = false) ∧
      logic_sellItem st id q d p0 =
        (0, (it.selling_price - it.purchase_price) * (q : ℚ),
          { items := pre ++ { it with quantity := it.quantity + |q| } :: post,
            sales := st.sales ++ [⟨st.nextSaleId, it.id, it.name, q,
              (it.selling_price - it.purchase_price) * (q : ℚ), d⟩],
            nextItemId := st.nextItemId,
            nextSaleId := st.nextSaleId + 1 }) ∧
      (q < 0 → it.purchase_price < it.selling_price →
        (it.selling_price - it.purchase_price) * (q : ℚ) < 0) := by
  obtain ⟨pre, post, hl, hpre, -, hop⟩ := sellItem_ok hfind (hq.trans hinv)
  refine ⟨pre, post, hl, hpre, ?_, ?_⟩
  · have habs : it.quantity + |q| = it.quantity - q := by
      rw [abs_of_nonpos hq]; ring
    rw [habs]
    exact hop
  · intro hq0 hpp
    apply mul_neg_of_pos_of_neg
    · linarith
    · exact_mod_cast hq0

/-- Witness for C4: selling `-5` units of the concrete item. -/
theorem sell_nonpositive_qty_witness :
    findItem wSt.items 1 = some wIt ∧ (-5 : Int) ≤ 0 ∧ (0 : Int) ≤ wIt.quantity ∧
    (∃ pre post,
      wSt.items = pre ++ wIt :: post ∧
      (∀ x ∈ pre, (x.id == (1 : Int)) = false) ∧
      logic_sellItem wSt 1 (-5) "d" 0 =
        (0, (wIt.selling_price - wIt.purchase_price) * ((-5 : Int) : ℚ),
          { items := pre ++ { wIt with quantity := wIt.quantity + |(-5 : Int)| } :: post,
            sales := wSt.sales ++ [⟨wSt.nextSaleId, wIt.id, wIt.name, -5,
              (wIt.selling_price - wIt.purchase_price) * ((-5 : Int) : ℚ), "d"⟩],
            nextItemId := wSt.nextItemId,
            nextSaleId := wSt.nextSaleId + 1 }) ∧
      ((-5 : Int) < 0 → wIt.purchase_price < wIt.selling_price →
        (wIt.selling_price - wIt.purchase_price) * ((-5 : Int) : ℚ) < 0)) :=
  ⟨rfl, by decide, by decide, sell_nonpositive_qty wSt 1 (-5) "d" 0 wIt rfl (by decide) (by decide)⟩

/-! ## C5: quantities stay non-negative under any sell sequence -/

/-- One sell call preserves non-negativity of all quantities. -/
theorem sell_preserves_nonneg {st : AppState}
    (hinv : ∀ it ∈ st.items, 0 ≤ it.quantity) (id q : Int) (d : String) (p0 : ℚ) :
    ∀ it2 ∈ (logic_sellItem st id q d p0).2.2.items, 0 ≤ it2.quantity := by
  cases hopt : findItem st.items id with
  | none => rw [sellItem_notFound hopt]; exact hinv
  | some it =>
    by_cases hlt : it.quantity < q
    · rw [sellItem_insufficient hopt hlt]; exact hinv
    · obtain ⟨pre, post, hl, -, -, hop⟩ := sellItem_ok hopt (not_lt.mp hlt)
      rw [hop]
      intro it2 hit2
      simp only [List.mem_append, List.mem_cons] at hit2
      rcases hit2 with hpre | rfl | hpost
      · exact hinv it2 (by rw [hl]; exact List.mem_append_left _ hpre)
      · have : q ≤ it.quantity := not_lt.mp hlt
        simp only []
        omega
      · exact hinv it2 (by rw [hl]; exact List.mem_append_right _ (List.mem_cons_of_mem _ hpost))

/-- **C5.** Starting from a state where every quantity is non-negative, every
sequence of sell calls (arbitrary ids and arbitrary, possibly non-positive,
quantities) leaves every quantity non-negative; any sell whose success would
make a quantity negative (an existing item with `q > quantity`) is rejected
with code 2 (`InsufficientStock`) and changes nothing. -/
theorem sell_sequence_nonneg (st : AppState)
    (hinv : ∀ it ∈ st.items, 0 ≤ it.quantity) :
    (∀ calls : List (Int × Int × String),
      ∀ it ∈ (runSells st calls).items, 0 ≤ it.quantity) ∧
    (∀ id q : Int, ∀ d : String, ∀ p0 : ℚ, ∀ it, findItem st.items id = some it →
      it.quantity < q → logic_sellItem st id q d p0 = (2, p0, st)) := by
  constructor
  · suffices h : ∀ calls : List (Int × Int × String), ∀ st2 : AppState,
        (∀ it ∈ st2.items, 0 ≤ it.quantity) →
        ∀ it ∈ (runSells st2 calls).items, 0 ≤ it.quantity by
      exact fun calls => h calls st hinv
    intro calls
    induction calls with
    | nil => intro st2 h2; simpa [runSells] using h2
    | cons c rest ih =>
      intro st2 h2
      obtain ⟨id, q, d⟩ := c
      simp only [runSells]
      exact ih _ (sell_preserves_nonneg h2 id q d 0)
  · intro id q d p0 it hfind hlt
    exact sellItem_insufficient hfind hlt

/-- Witness for C5 at a concrete state. -/
theorem sell_sequence_nonneg_witness :
    (∀ it ∈ wSt.items, 0 ≤ it.quantity) ∧
    ((∀ calls : List (Int × Int × String),
       ∀ it ∈ (runSells wSt calls).items, 0 ≤ it.quantity) ∧
     (∀ id q : Int, ∀ d : String, ∀ p0 : ℚ, ∀ it, findItem wSt.items id = some it →
       it.quantity < q → logic_sellItem wSt id q d p0 = (2, p0, wSt))) :=
  ⟨by decide, sell_sequence_nonneg wSt (by decide)⟩

/-! ## C7: add/find round trip and strictly increasing ids -/

/-- No logic operation ever decreases `nextItemId`. -/
theorem nextItemId_applyOp_mono (st : AppState) (op : Op) :
    st.nextItemId ≤ (applyOp st op).nextItemId := by
  cases op with
  | add n s q b sl => simp [applyOp, logic_addItem]
  | del id =>
    cases hopt : findItem st.items id <;> simp [applyOp, logic_deleteItem, hopt]
  | upd id q b sl =>
    cases hopt : findItem st.items id <;> simp [applyOp, logic_updateItem, hopt]
  | sellOp id q d p0 =>
    cases hopt : findItem st.items id with
    | none => simp [applyOp, logic_sellItem, hopt]
    | some it =>
      by_cases hlt : q > it.quantity <;> simp [applyOp, logic_sellItem, hopt, hlt]

/-- `nextItemId` is monotone along any operation sequence. -/
theorem nextItemId_runOps_mono (st : AppState) (ops : List Op) :
    st.nextItemId ≤ (runOps st ops).nextItemId := by
  induction ops generalizing st with
  | nil => simp [runOps]
  | cons op rest ih =>
    rw [runOps]
    exact le_trans (nextItemId_applyOp_mono st op) (ih _)

/-- **C7.** `add` returns the current counter value as the new id, an
immediate `find_by_id` with that id yields exactly the inserted fields (under
the id invariant `∀ it, it.id < nextItemId`), the counter advances by one,
any later `add` — after an arbitrary interleaved operation sequence,
including deletes — returns a strictly larger id (so ids are never reused),
and on the initial state the first assigned id is 1. -/
theorem add_find_and_increasing_ids (st : AppState) (name size : String)
    (qty : Int) (buy sl : ℚ)
    (hinv : ∀ it ∈ st.items, it.id < st.nextItemId) :
    (logic_addItem st name size qty buy sl).1 = st.nextItemId ∧
    findItem (logic_addItem st name size qty buy sl).2.items
        (logic_addItem st name size qty buy sl).1 =
      some ⟨st.nextItemId, name, size, qty, buy, sl⟩ ∧
    (logic_addItem st name size qty buy sl).2.nextItemId = st.nextItemId + 1 ∧
    (∀ ops : List Op, ∀ n2 s2 : String, ∀ q2 : Int, ∀ b2 sl2 : ℚ,
      (logic_addItem st name size qty buy sl).1 <
        (logic_addItem (runOps (logic_addItem st name size qty buy sl).2 ops)
          n2 s2 q2 b2 sl2).1) ∧
    (logic_addItem initState name size qty buy sl).1 = 1 := by
  refine ⟨rfl, ?_, rfl, ?_, rfl⟩
  · show ((logic_addItem st name size qty buy sl).2.items.find?
      (fun it => it.id == st.nextItemId)) = _
    have hitems : (logic_addItem st name size qty buy sl).2.items =
        st.items ++ [⟨st.nextItemId, name, size, qty, buy, sl⟩] := rfl
    rw [hitems, List.find?_append]
    have h1 : st.items.find? (fun it => it.id == st.nextItemId) = none := by
      rw [List.find?_eq_none]
      intro x hx
      simp only [beq_iff_eq]
      exact (hinv x hx).ne
    rw [h1]
    simp [List.find?]
  · intro ops n2 s2 q2 b2 sl2
    have hmono := nextItemId_runOps_mono (logic_addItem st name size qty buy sl).2 ops
    have h2 : (logic_addItem st name size qty buy sl).2.nextItemId = st.nextItemId + 1 := rfl
    have h3 : (logic_addItem (runOps (logic_addItem st name size qty buy sl).2 ops)
        n2 s2 q2 b2 sl2).1 =
        (runOps (logic_addItem st name size qty buy sl).2 ops).nextItemId := rfl
    rw [h3]
    show st.nextItemId < _
    omega

/-- Witness for C7 at a concrete state. -/
theorem add_find_and_increasing_ids_witness :
    (∀ it ∈ wSt.items, it.id < wSt.nextItemId) ∧
    ((logic_addItem wSt "N" "S" 7 1 2).1 = wSt.nextItemId ∧
     findItem (logic_addItem wSt "N" "S" 7 1 2).2.items
         (logic_addItem wSt "N" "S" 7 1 2).1 =
       some ⟨wSt.nextItemId, "N", "S", 7, 1, 2⟩ ∧
     (logic_addItem wSt "N" "S" 7 1 2).2.nextItemId = wSt.nextItemId + 1 ∧
     (∀ ops : List Op, ∀ n2 s2 : String, ∀ q2 : Int, ∀ b2 sl2 : ℚ,
       (logic_addItem wSt "N" "S" 7 1 2).1 <
         (logic_addItem (runOps (logic_addItem wSt "N" "S" 7 1 2).2 ops)
           n2 s2 q2 b2 sl2).1) ∧
     (logic_addItem initState "N" "S" 7 1 2).1 = 1) :=
  ⟨by decide, add_find_and_increasing_ids wSt "N" "S" 7 1 2 (by decide)⟩

/-! ## C8: update semantics and frame -/

/-- **C8.** `update` on an existing id returns `true`, overwrites exactly the
three mutable fields of that item (id, name, variant preserved), and leaves
every other item, the sales ledger, and both counters unchanged; on a missing
id it returns `false` and changes nothing at all. -/
theorem update_spec (st : AppState) (id qty : Int) (buy sl : ℚ) :
    (∀ it, findItem st.items id = some it →
      ∃ pre post,
        st.items = pre ++ it :: post ∧
        (∀ x ∈ pre, (x.id == id) = false) ∧
        logic_updateItem st id qty buy sl =
          (true,
            { items := pre ++
                { it with quantity := qty, purchase_price := buy, selling_price := sl } :: post,
              sales := st.sales,
              nextItemId := st.nextItemId,
              nextSaleId := st.nextSaleId })) ∧
    (findItem st.items id = none → logic_updateItem st id qty buy sl = (false, st)) := by
  constructor
  · intro it hfind
    obtain ⟨pre, post, hl, hpre, -, hupd, -⟩ :=
      find?_split
        (fun it => { it with quantity := qty, purchase_price := buy, selling_price := sl })
        hfind
    refine ⟨pre, post, hl, hpre, ?_⟩
    simp only [logic_updateItem, hfind]
    rw [hupd]
  · intro h
    simp [logic_updateItem, h]

/-- Witness for C8: both branches at concrete states. -/
theorem update_spec_witness :
    findItem wSt.items 1 = some wIt ∧
    (∃ pre post,
      wSt.items = pre ++ wIt :: post ∧
      (∀ x ∈ pre, (x.id == (1 : Int)) = false) ∧
      logic_updateItem wSt 1 9 6 7 =
        (true,
          { items := pre ++
              { wIt with quantity := 9, purchase_price := 6, selling_price := 7 } :: post,
            sales := wSt.sales,
            nextItemId := wSt.nextItemId,
            nextSaleId := wSt.nextSaleId })) ∧
    findItem wSt.items 99 = none ∧
    logic_updateItem wSt 99 9 6 7 = (false, wSt) :=
  ⟨rfl, (update_spec wSt 1 9 6 7).1 wIt rfl, rfl, (update_spec wSt 99 9 6 7).2 rfl⟩

/-! ## C9: seeding when both files are absent -/

/-- **C9.** When neither persisted file exists, `loadData` produces exactly
the three default items `(Widget, Small, 10, 5.0, 8.0)`, `(Bolt, Red, 3,
0.5, 1.0)`, `(Gadget, Blue, 20, 10.0, 15.0)` with ids 1, 2, 3, zero sales,
and `nextItemId = 4` — regardless of the prior in-memory state. -/
theorem load_absent_seeds (prior : AppState) :
    loadData prior ⟨none, none⟩ =
      .ok ⟨[⟨1, "Widget", "Small", 10, 5, 8⟩, ⟨2, "Bolt", "Red", 3, 1/2, 1⟩,
            ⟨3, "Gadget", "Blue", 20, 10, 15⟩], [], 4, 1⟩ := rfl

/-! ## C10: load depends only on the file contents -/

/-- **C10.** `loadData` clears the collections and resets the counters before
reading, so its outcome is a function of the file contents alone: two
different prior states load identically, and reloading the result of a
successful load yields that same result. -/
theorem load_ignores_prior (s1 s2 : AppState) (fs : Files) :
    loadData s1 fs = loadData s2 fs ∧
    (∀ st2, loadData s1 fs = .ok st2 → loadData st2 fs = loadData s1 fs) :=
  ⟨rfl, fun _ _ => rfl⟩

/-- Witness for C10: reloading the seeded state over absent files. -/
theorem load_ignores_prior_witness :
    loadData (seedData initState) ⟨none, none⟩ = loadData initState ⟨none, none⟩ :=
  (load_ignores_prior initState (seedData initState) ⟨none, none⟩).2
    (seedData initState) rfl

/-! ## Character-level lemmas about the printed output -/

theorem string_mk_data (s : String) : String.mk s.data = s := by
  cases s
  rfl

theorem string_ne_empty_of_data {s : String} (h : s.data ≠ []) : s ≠ "" := by
  intro he
  exact h (by rw [he])

theorem csvSafe_not_comma {c : Char} (h : csvSafe c = true) : ¬ c = ',' := by
  intro he
  subst he
  simp [csvSafe] at h

theorem csvSafe_not_newline {c : Char} (h : csvSafe c = true) : ¬ c = '\n' := by
  intro he
  subst he
  simp [csvSafe] at h

theorem cleanStr_mem {s : String} {c : Char} (h : cleanStr s = true)
    (hc : c ∈ s.data) : csvSafe c = true := by
  have := List.all_eq_true.mp h
  exact this c hc

theorem digitChar_safe {n : Nat} (h : n < 10) : csvSafe (digitChar n) = true := by
  interval_cases n <;> decide

theorem natCharsFuel_safe :
    ∀ fuel n : Nat, ∀ c ∈ natCharsFuel fuel n, csvSafe c = true := by
  intro fuel
  induction fuel with
  | zero => intro n c hc; simp [natCharsFuel] at hc
  | succ f ih =>
    intro n c hc
    by_cases h : n < 10
    · simp only [natCharsFuel, if_pos h, List.mem_singleton] at hc
      subst hc
      exact digitChar_safe h
    · simp only [natCharsFuel, if_neg h, List.mem_append, List.mem_singleton] at hc
      rcases hc with hc | hc
      · exact ih _ c hc
      · subst hc
        exact digitChar_safe (Nat.mod_lt _ (by norm_num))

theorem natChars_safe (n : Nat) : ∀ c ∈ natChars n, csvSafe c = true :=
  natCharsFuel_safe (n + 1) n

theorem natChars_ne_nil (n : Nat) : natChars n ≠ [] := by
  unfold natChars
  by_cases h : n < 10
  · simp [natCharsFuel, h]
  · simp [natCharsFuel, h]

theorem printInt_safe (i : Int) : ∀ c ∈ (printInt i).data, csvSafe c = true := by
  intro c hc
  unfold printInt at hc
  by_cases h : i < 0
  · rw [if_pos h] at hc
    rw [String.data_append] at hc
    rcases List.mem_append.mp hc with hc | hc
    · have : c = '-' := by simpa using hc
      subst this
      decide
    · exact natChars_safe _ c hc
  · rw [if_neg h] at hc
    exact natChars_safe _ c hc

theorem stripZeros_subset {l : List Char} : ∀ c ∈ stripZeros l, c ∈ l := by
  intro c hc
  unfold stripZeros at hc
  rw [List.mem_reverse] at hc
  have := (List.dropWhile_sublist _).subset hc
  exact List.mem_reverse.mp this

theorem pad2_safe {s : String} (h : ∀ c ∈ s.data, csvSafe c = true) :
    ∀ c ∈ (pad2 s).data, csvSafe c = true := by
  intro c hc
  unfold pad2 at hc
  by_cases hl : s.data.length < 2
  · rw [if_pos hl, String.data_append] at hc
    rcases List.mem_append.mp hc with hc | hc
    · have : c = '0' := by simpa using hc
      subst this
      decide
    · exact h c hc
  · rw [if_neg hl] at hc
    exact h c hc

theorem sciExp_safe (e : Int) : ∀ c ∈ (sciExp e).data, csvSafe c = true := by
  intro c hc
  unfold sciExp at hc
  simp only [String.data_append] at hc
  rcases List.mem_append.mp hc with hc | hc
  · rcases List.mem_append.mp hc with hc | hc
    · have : c = 'e' := by simpa using hc
      subst this
      decide
    · by_cases he : e < 0
      · rw [if_pos he] at hc
        have : c = '-' := by simpa using hc
        subst this
        decide
      · rw [if_neg he] at hc
        have : c = '+' := by simpa using hc
        subst this
        decide
  · refine pad2_safe ?_ c hc
    intro c2 hc2
    exact natChars_safe _ c2 hc2

theorem printSixDigits_safe {ds : List Char} (e : Int)
    (h : ∀ c ∈ ds, csvSafe c = true) :
    ∀ c ∈ (printSixDigits ds e).data, csvSafe c = true := by
  intro c hc
  unfold printSixDigits at hc
  by_cases h1 : 0 ≤ e ∧ e ≤ 5
  · rw [if_pos h1, String.data_append] at hc
    rcases List.mem_append.mp hc with hc | hc
    · exact h c (List.take_subset _ _ hc)
    · by_cases h2 : stripZeros (ds.drop (e.toNat + 1)) = []
      · rw [if_pos h2] at hc
        simp at hc
      · rw [if_neg h2, String.data_append] at hc
        rcases List.mem_append.mp hc with hc | hc
        · have : c = '.' := by simpa using hc
          subst this
          decide
        · exact h c (List.drop_subset _ _ (stripZeros_subset c hc))
  · rw [if_neg h1] at hc
    by_cases h2 : -4 ≤ e ∧ e < 0
    · rw [if_pos h2, String.data_append] at hc
      rcases List.mem_append.mp hc with hc | hc
      · have : c = '0' ∨ c = '.' := by simpa using hc
        rcases this with rfl | rfl <;> decide
      · rcases List.mem_append.mp hc with hc | hc
        · have : c = '0' := List.eq_of_mem_replicate hc
          subst this
          decide
        · exact h c (stripZeros_subset c hc)
    · rw [if_neg h2] at hc
      simp only [String.data_append] at hc
      rcases List.mem_append.mp hc with hc | hc
      · rcases List.mem_append.mp hc with hc | hc
        · exact h c (List.take_subset _ _ hc)
        · by_cases h3 : stripZeros ds.tail = []
          · rw [if_pos h3] at hc
            simp at hc
          · rw [if_neg h3, String.data_append] at hc
            rcases List.mem_append.mp hc with hc | hc
            · have : c = '.' := by simpa using hc
              subst this
              decide
            · exact h c (List.tail_subset _ (stripZeros_subset c hc))
      · exact sciExp_safe e c hc

theorem printDouble_safe (x : ℚ) : ∀ c ∈ (printDouble x).data, csvSafe c = true := by
  intro c hc
  unfold printDouble at hc
  by_cases h0 : x = 0
  · rw [if_pos h0] at hc
    have : c = '0' := by simpa using hc
    subst this
    decide
  · rw [if_neg h0, String.data_append] at hc
    rcases List.mem_append.mp hc with hc | hc
    · by_cases hneg : x < 0
      · rw [if_pos hneg] at hc
        have : c = '-' := by simpa using hc
        subst this
        decide
      · rw [if_neg hneg] at hc
        simp at hc
    · exact printSixDigits_safe _ (natChars_safe _) c hc

theorem printSixDigits_data_ne_nil {ds : List Char} (e : Int) (h : ds ≠ []) :
    (printSixDigits ds e).data ≠ [] := by
  unfold printSixDigits
  by_cases h1 : 0 ≤ e ∧ e ≤ 5
  · rw [if_pos h1, String.data_append]
    intro hc
    rcases List.append_eq_nil.mp hc with ⟨hl, -⟩
    rw [List.take_eq_nil_iff] at hl
    rcases hl with hl | hl
    · simp at hl
    · exact h hl
  · rw [if_neg h1]
    by_cases h2 : -4 ≤ e ∧ e < 0
    · rw [if_pos h2, String.data_append]
      intro hc
      rcases List.append_eq_nil.mp hc with ⟨hl, -⟩
      simp at hl
    · rw [if_neg h2]
      simp only [String.data_append]
      intro hc
      rcases List.append_eq_nil.mp hc with ⟨hl, -⟩
      rcases List.append_eq_nil.mp hl with ⟨hll, -⟩
      rw [List.take_eq_nil_iff] at hll
      rcases hll with hll | hll
      · simp at hll
      · exact h hll

theorem printDouble_data_ne_nil (x : ℚ) : (printDouble x).data ≠ [] := by
  unfold printDouble
  by_cases h0 : x = 0
  · rw [if_pos h0]
    simp
  · rw [if_neg h0, String.data_append]
    intro hc
    rcases List.append_eq_nil.mp hc with ⟨-, hr⟩
    exact printSixDigits_data_ne_nil _ (natChars_ne_nil _) hr

/-! ## Splitting lemmas for `getline`-style tokenisation -/

/-- A string containing a non-whitespace character does not trim to empty. -/
theorem trim_ne_empty {s : String} {c : Char} (hc : c ∈ s.data)
    (hw : isTrimWS c = false) : ¬ trim s = "" := by
  intro h
  have hdata : (((s.data.dropWhile isTrimWS).reverse.dropWhile isTrimWS).reverse) = [] := by
    have := congrArg String.data h
    simpa [trim] using this
  rw [List.reverse_eq_nil_iff] at hdata
  have hall : ∀ x ∈ (s.data.dropWhile isTrimWS).reverse, isTrimWS x = true :=
    List.dropWhile_eq_nil_iff.mp hdata
  have hall2 : ∀ x ∈ s.data.dropWhile isTrimWS, isTrimWS x = true := by
    intro x hx
    exact hall x (List.mem_reverse.mpr hx)
  have hsplit : s.data = s.data.takeWhile isTrimWS ++ s.data.dropWhile isTrimWS :=
    (List.takeWhile_append_dropWhile _ _).symm
  rw [hsplit] at hc
  rcases List.mem_append.mp hc with hc | hc
  · have := List.mem_takeWhile_imp hc
    rw [hw] at this
    exact Bool.false_ne_true this
  · have := hall2 c hc
    rw [hw] at this
    exact Bool.false_ne_true this

theorem cppSplit_no_delim {d : Char} {b : List Char}
    (hb : ∀ c ∈ b, ¬ c = d) (hne : b ≠ []) :
    cppSplit d b = [String.mk b] := by
  induction b with
  | nil => exact absurd rfl hne
  | cons c cs ih =>
    have hc : ¬ c = d := hb c (List.mem_cons_self _ _)
    by_cases hcs : cs = []
    · subst hcs
      simp [cppSplit, hc]
    · have hrest : cppSplit d cs = [String.mk cs] :=
        ih (fun x hx => hb x (List.mem_cons_of_mem _ hx)) hcs
      simp only [cppSplit, if_neg hc, hrest]

theorem cppSplit_cons_delim (d : Char) (rest : List Char) {b : List Char}
    (hb : ∀ c ∈ b, ¬ c = d) :
    cppSplit d (b ++ d :: rest) = String.mk b :: cppSplit d rest := by
  induction b with
  | nil =>
    simp only [List.nil_append, cppSplit, if_pos rfl]
    rfl
  | cons c cs ih =>
    have hc : ¬ c = d := hb c (List.mem_cons_self _ _)
    have hrest : cppSplit d (cs ++ d :: rest) = String.mk cs :: cppSplit d rest :=
      ih (fun x hx => hb x (List.mem_cons_of_mem _ hx))
    simp only [List.cons_append, cppSplit, if_neg hc]
    have hrest2 : cppSplit d (cs.append (d :: rest)) = String.mk cs :: cppSplit d rest :=
      hrest
    rw [hrest2]

/-- `parseCSV` on a line made of six delimiter-free fields recovers exactly
those fields (the last must be non-empty: a trailing empty field is
dropped by `getline`). -/
theorem parseCSV_fields {line f1 f2 f3 f4 f5 f6 : String}
    (hdata : line.data = f1.data ++ ',' :: (f2.data ++ ',' :: (f3.data ++ ',' ::
      (f4.data ++ ',' :: (f5.data ++ ',' :: f6.data)))))
    (h1 : ∀ c ∈ f1.data, ¬ c = ',') (h2 : ∀ c ∈ f2.data, ¬ c = ',')
    (h3 : ∀ c ∈ f3.data, ¬ c = ',') (h4 : ∀ c ∈ f4.data, ¬ c = ',')
    (h5 : ∀ c ∈ f5.data, ¬ c = ',') (h6 : ∀ c ∈ f6.data, ¬ c = ',')
    (hne : f6.data ≠ []) :
    parseCSV line = [f1, f2, f3, f4, f5, f6] := by
  unfold parseCSV
  rw [hdata, cppSplit_cons_delim _ _ h1, cppSplit_cons_delim _ _ h2,
    cppSplit_cons_delim _ _ h3, cppSplit_cons_delim _ _ h4,
    cppSplit_cons_delim _ _ h5, cppSplit_no_delim h6 hne]

/-- The lines read back from a concatenation of newline-terminated records
are exactly the record bodies. -/
theorem linesOf_concat {bodies : List String}
    (h : ∀ b ∈ bodies, ∀ c ∈ b.data, ¬ c = '\n') :
    linesOf (concatStr (bodies.map (fun b => b ++ "\n"))) = bodies := by
  induction bodies with
  | nil => rfl
  | cons b bs ih =>
    have hdata : (concatStr (((b :: bs).map (fun b => b ++ "\n")))).data =
        b.data ++ '\n' :: (concatStr (bs.map (fun b => b ++ "\n"))).data := by
      simp [concatStr, String.data_append]
    show cppSplit '\n' (concatStr (((b :: bs).map (fun b => b ++ "\n")))).data = b :: bs
    rw [hdata, cppSplit_cons_delim _ _ (h b (List.mem_cons_self _ _)), string_mk_data]
    have : cppSplit '\n' (concatStr (bs.map (fun b => b ++ "\n"))).data = bs :=
      ih (fun x hx => h x (List.mem_cons_of_mem _ hx))
    rw [this]

/-! ## The two load loops -/

/-- Running the item loop over fault-free lines: it appends exactly the
parsed rows in order, touches neither sales nor `nextSaleId`, never decreases
`nextItemId`, and keeps every item id below `nextItemId`. -/
theorem foldE_items (lines : List String) :
    ∀ st : AppState, (∀ l ∈ lines, itemRow l ≠ .fault) →
    ∃ st2, foldE loadItemLine st lines = .ok st2 ∧
      st2.items = st.items ++ lines.filterMap (fun l => rowOf (itemRow l)) ∧
      st2.sales = st.sales ∧
      st2.nextSaleId = st.nextSaleId ∧
      st.nextItemId ≤ st2.nextItemId ∧
      ((∀ it ∈ st.items, it.id < st.nextItemId) →
        ∀ it ∈ st2.items, it.id < st2.nextItemId) := by
  induction lines with
  | nil =>
    intro st h
    exact ⟨st, rfl, by simp, rfl, rfl, le_refl _, fun h2 => h2⟩
  | cons l ls ih =>
    intro st h
    cases hr : itemRow l with
    | fault => exact absurd hr (h l (List.mem_cons_self _ _))
    | skip =>
      obtain ⟨st2, hfold, hitems, hsales, hnsid, hmono, hinv⟩ :=
        ih st (fun x hx => h x (List.mem_cons_of_mem _ hx))
      refine ⟨st2, ?_, ?_, hsales, hnsid, hmono, hinv⟩
      · simp only [foldE, loadItemLine, hr]
        exact hfold
      · simp only [List.filterMap_cons, hr, rowOf]
        exact hitems
    | row it =>
      obtain ⟨st2, hfold, hitems, hsales, hnsid, hmono, hinv⟩ :=
        ih { st with
              items := st.items ++ [it]
              nextItemId := if st.nextItemId ≤ it.id then it.id + 1 else st.nextItemId }
          (fun x hx => h x (List.mem_cons_of_mem _ hx))
      have hstep : st.nextItemId ≤
          (if st.nextItemId ≤ it.id then it.id + 1 else st.nextItemId) := by
        by_cases hle : st.nextItemId ≤ it.id
        · rw [if_pos hle]; omega
        · rw [if_neg hle]
      refine ⟨st2, ?_, ?_, hsales, hnsid, le_trans hstep hmono, ?_⟩
      · simp only [foldE, loadItemLine, hr]
        exact hfold
      · rw [hitems]
        simp [List.filterMap_cons, hr, rowOf, List.append_assoc]
      · intro hbase
        apply hinv
        intro x hx
        simp only [List.mem_append, List.mem_singleton] at hx
        rcases hx with hx | rfl
        · exact lt_of_lt_of_le (hbase x hx) hstep
        · by_cases hle : st.nextItemId ≤ x.id
          · simp only [if_pos hle]; omega
          · simp only [if_neg hle]; omega

/-- Running the sale loop over fault-free lines (mirror of `foldE_items`). -/
theorem foldE_sales (lines : List String) :
    ∀ st : AppState, (∀ l ∈ lines, saleRow l ≠ .fault) →
    ∃ st2, foldE loadSaleLine st lines = .ok st2 ∧
      st2.sales = st.sales ++ lines.filterMap (fun l => rowOf (saleRow l)) ∧
      st2.items = st.items ∧
      st2.nextItemId = st.nextItemId ∧
      st.nextSaleId ≤ st2.nextSaleId ∧
      ((∀ sa ∈ st.sales, sa.id < st.nextSaleId) →
        ∀ sa ∈ st2.sales, sa.id < st2.nextSaleId) := by
  induction lines with
  | nil =>
    intro st h
    exact ⟨st, rfl, by simp, rfl, rfl, le_refl _, fun h2 => h2⟩
  | cons l ls ih =>
    intro st h
    cases hr : saleRow l with
    | fault => exact absurd hr (h l (List.mem_cons_self _ _))
    | skip =>
      obtain ⟨st2, hfold, hsales, hitems, hniid, hmono, hinv⟩ :=
        ih st (fun x hx => h x (List.mem_cons_of_mem _ hx))
      refine ⟨st2, ?_, ?_, hitems, hniid, hmono, hinv⟩
      · simp only [foldE, loadSaleLine, hr]
        exact hfold
      · simp only [List.filterMap_cons, hr, rowOf]
        exact hsales
    | row sa =>
      obtain ⟨st2, hfold, hsales, hitems, hniid, hmono, hinv⟩ :=
        ih { st with
              sales := st.sales ++ [sa]
              nextSaleId := if st.nextSaleId ≤ sa.id then sa.id + 1 else st.nextSaleId }
          (fun x hx => h x (List.mem_cons_of_mem _ hx))
      have hstep : st.nextSaleId ≤
          (if st.nextSaleId ≤ sa.id then sa.id + 1 else st.nextSaleId) := by
        by_cases hle : st.nextSaleId ≤ sa.id
        · rw [if_pos hle]; omega
        · rw [if_neg hle]
      refine ⟨st2, ?_, ?_, hitems, hniid, le_trans hstep hmono, ?_⟩
      · simp only [foldE, loadSaleLine, hr]
        exact hfold
      · rw [hsales]
        simp [List.filterMap_cons, hr, rowOf, List.append_assoc]
      · intro hbase
        apply hinv
        intro x hx
        simp only [List.mem_append, List.mem_singleton] at hx
        rcases hx with hx | rfl
        · exact lt_of_lt_of_le (hbase x hx) hstep
        · by_cases hle : st.nextSaleId ≤ x.id
          · simp only [if_pos hle]; omega
          · simp only [if_neg hle]; omega

/-- Assembly of `loadData` from the two successful loops when the seed guard
does not fire. -/
theorem loadData_both_ok (prior : AppState) {st1 st2 : AppState} {ci cs : String}
    (h1 : foldE loadItemLine initState (linesOf ci) = .ok st1)
    (h2 : foldE loadSaleLine st1 (linesOf cs) = .ok st2)
    (h3 : (st2.items.isEmpty && st2.sales.isEmpty) = false) :
    loadData prior ⟨some ci, some cs⟩ = .ok st2 := by
  simp only [loadData, h1, h2, h3]
  rfl

/-! ## Per-record round-trip lemmas -/

theorem itemBody_data (it : Item) :
    (itemBody it).data = (printInt it.id).data ++ ',' :: (it.name.data ++ ',' ::
      (it.size_color.data ++ ',' :: ((printInt it.quantity).data ++ ',' ::
      ((printDouble it.purchase_price).data ++ ',' ::
        (printDouble it.selling_price).data)))) := by
  have hcomma : ("," : String).data = [','] := rfl
  simp [itemBody, String.data_append, hcomma, List.append_assoc]

theorem saleBody_data (sa : Sale) :
    (saleBody sa).data = (printInt sa.id).data ++ ',' :: ((printInt sa.item_id).data ++ ',' ::
      (sa.item_name.data ++ ',' :: ((printInt sa.quantity_sold).data ++ ',' ::
      ((printDouble sa.profit).data ++ ',' :: sa.date_sold.data)))) := by
  have hcomma : ("," : String).data = [','] := rfl
  simp [saleBody, String.data_append, hcomma, List.append_assoc]

theorem itemBody_no_newline {it : Item} (hn : cleanStr it.name = true)
    (hv : cleanStr it.size_color = true) : ∀ c ∈ (itemBody it).data, ¬ c = '\n' := by
  intro c hc
  rw [itemBody_data] at hc
  simp only [List.mem_append, List.mem_cons] at hc
  rcases hc with hc | rfl | hc | rfl | hc | rfl | hc | rfl | hc | rfl | hc
  · exact csvSafe_not_newline (printInt_safe _ c hc)
  · decide
  · exact csvSafe_not_newline (cleanStr_mem hn hc)
  · decide
  · exact csvSafe_not_newline (cleanStr_mem hv hc)
  · decide
  · exact csvSafe_not_newline (printInt_safe _ c hc)
  · decide
  · exact csvSafe_not_newline (printDouble_safe _ c hc)
  · decide
  · exact csvSafe_not_newline (printDouble_safe _ c hc)

theorem saleBody_no_newline {sa : Sale} (hn : cleanStr sa.item_name = true)
    (hd : cleanStr sa.date_sold = true) : ∀ c ∈ (saleBody sa).data, ¬ c = '\n' := by
  intro c hc
  rw [saleBody_data] at hc
  simp only [List.mem_append, List.mem_cons] at hc
  rcases hc with hc | rfl | hc | rfl | hc | rfl | hc | rfl | hc | rfl | hc
  · exact csvSafe_not_newline (printInt_safe _ c hc)
  · decide
  · exact csvSafe_not_newline (printInt_safe _ c hc)
  · decide
  · exact csvSafe_not_newline (cleanStr_mem hn hc)
  · decide
  · exact csvSafe_not_newline (printInt_safe _ c hc)
  · decide
  · exact csvSafe_not_newline (printDouble_safe _ c hc)
  · decide
  · exact csvSafe_not_newline (cleanStr_mem hd hc)

/-- A persistable item's saved line parses back to exactly that item. -/
theorem itemRow_itemBody {it : Item} (h : itemPersistable it) :
    itemRow (itemBody it) = .row it := by
  obtain ⟨hn, hv, hid, hq, hb, hs⟩ := h
  have hmem : ',' ∈ (itemBody it).data := by
    rw [itemBody_data]
    simp
  have hparse : parseCSV (itemBody it) = [printInt it.id, it.name, it.size_color,
      printInt it.quantity, printDouble it.purchase_price,
      printDouble it.selling_price] := by
    refine parseCSV_fields (itemBody_data it) ?_ ?_ ?_ ?_ ?_ ?_ ?_
    · exact fun c hc => csvSafe_not_comma (printInt_safe _ c hc)
    · exact fun c hc => csvSafe_not_comma (cleanStr_mem hn hc)
    · exact fun c hc => csvSafe_not_comma (cleanStr_mem hv hc)
    · exact fun c hc => csvSafe_not_comma (printInt_safe _ c hc)
    · exact fun c hc => csvSafe_not_comma (printDouble_safe _ c hc)
    · exact fun c hc => csvSafe_not_comma (printDouble_safe _ c hc)
    · exact printDouble_data_ne_nil _
  unfold itemRow
  rw [if_neg (trim_ne_empty hmem (by decide)), hparse]
  simp only [hid, hq, hb, hs]

/-- A persistable sale's saved line parses back to exactly that sale. -/
theorem saleRow_saleBody {sa : Sale} (h : salePersistable sa) :
    saleRow (saleBody sa) = .row sa := by
  obtain ⟨hn, hd, hdne, hid, hiid, hq, hp⟩ := h
  have hmem : ',' ∈ (saleBody sa).data := by
    rw [saleBody_data]
    simp
  have hparse : parseCSV (saleBody sa) = [printInt sa.id, printInt sa.item_id,
      sa.item_name, printInt sa.quantity_sold, printDouble sa.profit,
      sa.date_sold] := by
    refine parseCSV_fields (saleBody_data sa) ?_ ?_ ?_ ?_ ?_ ?_ ?_
    · exact fun c hc => csvSafe_not_comma (printInt_safe _ c hc)
    · exact fun c hc => csvSafe_not_comma (printInt_safe _ c hc)
    · exact fun c hc => csvSafe_not_comma (cleanStr_mem hn hc)
    · exact fun c hc => csvSafe_not_comma (printInt_safe _ c hc)
    · exact fun c hc => csvSafe_not_comma (printDouble_safe _ c hc)
    · exact fun c hc => csvSafe_not_comma (cleanStr_mem hd hc)
    · intro he
      apply hdne
      rw [← string_mk_data sa.date_sold, he]
  unfold saleRow
  rw [if_neg (trim_ne_empty hmem (by decide)), hparse]
  simp only [hid, hiid, hq, hp]

/-- Fault-free parse of a list of persistable items' lines. -/
theorem rowOf_row {α : Type} (a : α) : rowOf (RowResult.row a) = some a := rfl

theorem filterMap_itemRows {l : List Item} (h : ∀ it ∈ l, itemPersistable it) :
    (l.map itemBody).filterMap (fun s => rowOf (itemRow s)) = l := by
  induction l with
  | nil => rfl
  | cons a l ih =>
    simp only [List.map_cons, List.filterMap_cons,
      itemRow_itemBody (h a (List.mem_cons_self _ _)), rowOf_row]
    rw [ih (fun x hx => h x (List.mem_cons_of_mem _ hx))]

/-- Fault-free parse of a list of persistable sales' lines. -/
theorem filterMap_saleRows {l : List Sale} (h : ∀ sa ∈ l, salePersistable sa) :
    (l.map saleBody).filterMap (fun s => rowOf (saleRow s)) = l := by
  induction l with
  | nil => rfl
  | cons a l ih =>
    simp only [List.map_cons, List.filterMap_cons,
      saleRow_saleBody (h a (List.mem_cons_self _ _)), rowOf_row]
    rw [ih (fun x hx => h x (List.mem_cons_of_mem _ hx))]

/-! ## C3: save/load round trip -/

/-- **C3 counterexample.** Saving the empty state writes two empty files;
reloading them triggers the default seeding, so the round trip does not
reproduce the (empty) item and sale lists. -/
theorem roundtrip_fails_on_empty_state :
    loadData initState (saveData initState) = .ok (seedData initState) ∧
    ¬ ∃ st2, loadData initState (saveData initState) = .ok st2 ∧
      st2.items = initState.items ∧ st2.sales = initState.sales := by
  refine ⟨rfl, ?_⟩
  rintro ⟨st2, h1, h2, -⟩
  have hload : loadData initState (saveData initState) = .ok (seedData initState) := rfl
  rw [hload] at h1
  cases h1
  simp [seedData, initState] at h2

/-- **C3 (amended).** `save` followed by `load` reproduces the items and the
sales exactly — same fields, same ids, same order — and leaves both next-id
counters strictly above every id present, for every state in which (a) each
record survives the textual round trip (`itemPersistable`/`salePersistable`:
delimiter-free strings, a non-empty sale date, and numeric fields that
re-parse to themselves, e.g. at most 6 significant digits) and (b) items and
sales are not both empty (otherwise load seeds the three defaults instead). -/
theorem save_load_roundtrip (prior st : AppState)
    (hitems : ∀ it ∈ st.items, itemPersistable it)
    (hsales : ∀ sa ∈ st.sales, salePersistable sa)
    (hne : ¬ (st.items = [] ∧ st.sales = [])) :
    ∃ st2, loadData prior (saveData st) = .ok st2 ∧
      st2.items = st.items ∧ st2.sales = st.sales ∧
      (∀ it ∈ st2.items, it.id < st2.nextItemId) ∧
      (∀ sa ∈ st2.sales, sa.id < st2.nextSaleId) := by
  have hmapi : st.items.map itemLine = (st.items.map itemBody).map (fun b => b ++ "\n") := by
    rw [List.map_map]
    rfl
  have hlinesi : linesOf (concatStr (st.items.map itemLine)) = st.items.map itemBody := by
    rw [hmapi]
    refine linesOf_concat ?_
    intro b hb
    obtain ⟨it2, hit2, rfl⟩ := List.mem_map.mp hb
    obtain ⟨hn, hv, -, -, -, -⟩ := hitems it2 hit2
    exact itemBody_no_newline hn hv
  have hmaps : st.sales.map saleLine = (st.sales.map saleBody).map (fun b => b ++ "\n") := by
    rw [List.map_map]
    rfl
  have hliness : linesOf (concatStr (st.sales.map saleLine)) = st.sales.map saleBody := by
    rw [hmaps]
    refine linesOf_concat ?_
    intro b hb
    obtain ⟨sa2, hsa2, rfl⟩ := List.mem_map.mp hb
    obtain ⟨hn, hd, -, -, -, -, -⟩ := hsales sa2 hsa2
    exact saleBody_no_newline hn hd
  have hnofault_i : ∀ l ∈ st.items.map itemBody, itemRow l ≠ .fault := by
    intro l hl
    obtain ⟨it2, hit2, rfl⟩ := List.mem_map.mp hl
    rw [itemRow_itemBody (hitems it2 hit2)]
    intro hcon
    cases hcon
  have hnofault_s : ∀ l ∈ st.sales.map saleBody, saleRow l ≠ .fault := by
    intro l hl
    obtain ⟨sa2, hsa2, rfl⟩ := List.mem_map.mp hl
    rw [saleRow_saleBody (hsales sa2 hsa2)]
    intro hcon
    cases hcon
  obtain ⟨st1, hfold1, hit1, hsa1, hnsid1, -, hinv1⟩ :=
    foldE_items (st.items.map itemBody) initState hnofault_i
  obtain ⟨st2, hfold2, hsa2, hit2, hniid2, -, hinv2⟩ :=
    foldE_sales (st.sales.map saleBody) st1 hnofault_s
  have hit1' : st1.items = st.items := by
    rw [hit1, filterMap_itemRows hitems]
    simp [initState]
  have hsa1' : st1.sales = [] := by
    rw [hsa1]
    rfl
  have hit2' : st2.items = st.items := by
    rw [hit2, hit1']
  have hsa2' : st2.sales = st.sales := by
    rw [hsa2, hsa1']
    rw [filterMap_saleRows hsales]
    simp
  have hguard : (st2.items.isEmpty && st2.sales.isEmpty) = false := by
    rw [hit2', hsa2']
    cases hi : st.items with
    | cons a l => simp
    | nil =>
      cases hs : st.sales with
      | cons a l => simp
      | nil => exact absurd ⟨hi, hs⟩ hne
  have h1' : foldE loadItemLine initState
      (linesOf (concatStr (st.items.map itemLine))) = .ok st1 := by
    rw [hlinesi]
    exact hfold1
  have h2' : foldE loadSaleLine st1
      (linesOf (concatStr (st.sales.map saleLine))) = .ok st2 := by
    rw [hliness]
    exact hfold2
  refine ⟨st2, loadData_both_ok prior h1' h2' hguard, hit2', hsa2', ?_, ?_⟩
  · have hbase : ∀ it ∈ initState.items, it.id < initState.nextItemId := by
      intro x hx
      simp [initState] at hx
    have hst1 := hinv1 hbase
    intro x hx
    rw [hit2] at hx
    rw [hniid2]
    exact hst1 x hx
  · have hbase : ∀ sa ∈ st1.sales, sa.id < st1.nextSaleId := by
      intro x hx
      rw [hsa1'] at hx
      simp at hx
    exact hinv2 hbase

/-- Witness for C3 (amended) at a concrete one-item, one-sale state. -/
theorem save_load_roundtrip_witness :
    (∀ it ∈ wSt2.items, itemPersistable it) ∧
    (∀ sa ∈ wSt2.sales, salePersistable sa) ∧
    ¬ (wSt2.items = [] ∧ wSt2.sales = []) ∧
    (∃ st2, loadData initState (saveData wSt2) = .ok st2 ∧
      st2.items = wSt2.items ∧ st2.sales = wSt2.sales ∧
      (∀ it ∈ st2.items, it.id < st2.nextItemId) ∧
      (∀ sa ∈ st2.sales, sa.id < st2.nextSaleId)) := by
  have hi : ∀ it ∈ wSt2.items, itemPersistable it := by
    intro it hit
    have : it = ⟨1, "A", "B", 2, 3, 4⟩ := by simpa [wSt2] using hit
    subst this
    exact ⟨by decide, by decide, by decide, by decide,
      by with_unfolding_all rfl, by with_unfolding_all rfl⟩
  have hs : ∀ sa ∈ wSt2.sales, salePersistable sa := by
    intro sa hsa
    have : sa = ⟨1, 1, "A", 1, 1, "D"⟩ := by simpa [wSt2] using hsa
    subst this
    exact ⟨by decide, by decide, by decide, by decide, by decide, by decide,
      by with_unfolding_all rfl⟩
  have hn : ¬ (wSt2.items = [] ∧ wSt2.sales = []) := by
    simp [wSt2]
  exact ⟨hi, hs, hn, save_load_roundtrip initState wSt2 hi hs hn⟩

/-! ## C6: which malformed lines are skipped -/

/-- **C6 counterexample.** A line with six comma-separated fields whose
numeric field does not parse is not skipped: `stoi` throws, the exception
escapes `loadData`, and the load does not complete. -/
theorem load_faults_on_bad_numeric :
    itemRow "abc,n,v,1,2,3" = .fault ∧
    loadData initState ⟨some "abc,n,v,1,2,3", none⟩ = .error initState :=
  ⟨rfl, rfl⟩

/-- **C6 (amended).** `load` silently skips exactly the blank lines and the
lines with fewer than six comma-separated fields, surfaces no error for them,
and loads every well-formed line — provided no line with at least six fields
has a malformed numeric field; such a line aborts the load with an uncaught
exception instead of being skipped (see the counterexample).  The last
hypothesis excludes the default-seeding case where nothing at all is
loaded. -/
theorem load_skips_short_and_blank_lines (prior : AppState) (ci cs : String)
    (hi : ∀ l ∈ linesOf ci, itemRow l ≠ .fault)
    (hs : ∀ l ∈ linesOf cs, saleRow l ≠ .fault)
    (hne : (linesOf ci).filterMap (fun l => rowOf (itemRow l)) ≠ [] ∨
           (linesOf cs).filterMap (fun l => rowOf (saleRow l)) ≠ []) :
    ∃ st2, loadData prior ⟨some ci, some cs⟩ = .ok st2 ∧
      st2.items = (linesOf ci).filterMap (fun l => rowOf (itemRow l)) ∧
      st2.sales = (linesOf cs).filterMap (fun l => rowOf (saleRow l)) := by
  obtain ⟨st1, hfold1, hit1, hsa1, -, -, -⟩ := foldE_items (linesOf ci) initState hi
  obtain ⟨st2, hfold2, hsa2, hit2, -, -, -⟩ := foldE_sales (linesOf cs) st1 hs
  have hit2' : st2.items = (linesOf ci).filterMap (fun l => rowOf (itemRow l)) := by
    rw [hit2, hit1]
    simp [initState]
  have hsa2' : st2.sales = (linesOf cs).filterMap (fun l => rowOf (saleRow l)) := by
    rw [hsa2, hsa1]
    simp [initState]
  have hguard : (st2.items.isEmpty && st2.sales.isEmpty) = false := by
    rcases hne with hne | hne
    · have : st2.items.isEmpty = false := by
        rw [hit2']
        cases hl : (linesOf ci).filterMap (fun l => rowOf (itemRow l)) with
        | nil => exact absurd hl hne
        | cons a l => rfl
      simp [this]
    · have : st2.sales.isEmpty = false := by
        rw [hsa2']
        cases hl : (linesOf cs).filterMap (fun l => rowOf (saleRow l)) with
        | nil => exact absurd hl hne
        | cons a l => rfl
      simp [this]
  exact ⟨st2, loadData_both_ok prior hfold1 hfold2 hguard, hit2', hsa2'⟩

/-- Witness for C6 (amended): one well-formed line, one short line that is
skipped, and an empty sales file. -/
theorem load_skips_short_and_blank_lines_witness :
    (∀ l ∈ linesOf "1,A,B,2,3,4\nbad", itemRow l ≠ .fault) ∧
    (∀ l ∈ linesOf "", saleRow l ≠ .fault) ∧
    ((linesOf "1,A,B,2,3,4\nbad").filterMap (fun l => rowOf (itemRow l)) ≠ [] ∨
     (linesOf "").filterMap (fun l => rowOf (saleRow l)) ≠ []) ∧
    (∃ st2, loadData initState ⟨some "1,A,B,2,3,4\nbad", some ""⟩ = .ok st2 ∧
      st2.items = (linesOf "1,A,B,2,3,4\nbad").filterMap (fun l => rowOf (itemRow l)) ∧
      st2.sales = (linesOf "").filterMap (fun l => rowOf (saleRow l))) := by
  have hlines : linesOf "1,A,B,2,3,4\nbad" = ["1,A,B,2,3,4", "bad"] := rfl
  have hrow1 : itemRow "1,A,B,2,3,4" = .row ⟨1, "A", "B", 2, 3, 4⟩ := by
    with_unfolding_all rfl
  have hrow2 : itemRow "bad" = .skip := rfl
  have hi : ∀ l ∈ linesOf "1,A,B,2,3,4\nbad", itemRow l ≠ .fault := by
    intro l hl
    rw [hlines] at hl
    simp only [List.mem_cons, List.mem_singleton] at hl
    rcases hl with rfl | rfl | hl
    · rw [hrow1]
      intro hcon
      cases hcon
    · rw [hrow2]
      intro hcon
      cases hcon
    · simp at hl
  have hs : ∀ l ∈ linesOf "", saleRow l ≠ .fault := by
    intro l hl
    simp [linesOf, cppSplit] at hl
  have hne : (linesOf "1,A,B,2,3,4\nbad").filterMap (fun l => rowOf (itemRow l)) ≠ [] ∨
      (linesOf "").filterMap (fun l => rowOf (saleRow l)) ≠ [] := by
    left
    rw [hlines]
    simp only [List.filterMap_cons, hrow1, hrow2, rowOf_row, rowOf]
    intro hcon
    cases hcon
  exact ⟨hi, hs, hne,
    load_skips_short_and_blank_lines initState "1,A,B,2,3,4\nbad" "" hi hs hne⟩

end InventoryApp
